import Mathlib

/-!
Verification of the request-handling and result-normalization layer of the
fastapi-scraper endpoint (src/api/index.py).

The Python values flowing through the handler (raw scraper output, the
normalized dict, the JSON response bodies) are modelled by the inductive
type JValue.  Python dicts are association lists; a dict access hits the
first matching key.  Fallible Python operations (subscripting, iteration,
pydantic validation, json.loads) are modelled in the Except monad, where
the error string plays the role of str(e) for the raised exception.  The
external scraping library is opaque: its outcome is a parameter of the
handler model (an Except value), as is the json.loads parser.
-/

/-- Model of a Python/JSON value. -/
inductive JValue where
  | null
  | boolean (b : Bool)
  | num (n : Int)
  | str (s : String)
  | arr (elems : List JValue)
  | obj (fields : List (String × JValue))

/-- Dict lookup: value of the first field with the given key, if any. -/
def jLookup (fields : List (String × JValue)) (k : String) : Option JValue :=
  match fields.find? (fun p => p.1 == k) with
  | some p => some p.2
  | none => none

/-- Python dict.get(k, dflt): the stored value when the key is present,
the default otherwise. -/
def pyGet (fields : List (String × JValue)) (k : String) (dflt : JValue) : JValue :=
  (jLookup fields k).getD dflt

/-- Python subscript v[k]: KeyError when the key is missing, TypeError when
v is not a dict. -/
def pySubscript (v : JValue) (k : String) : Except String JValue :=
  match v with
  | .obj f =>
    match jLookup f k with
    | some x => .ok x
    | none => .error ("KeyError: " ++ k)
  | _ => .error "TypeError: object is not subscriptable"

/-- Python iteration (for x in v): lists yield their elements, dicts their
keys, strings their characters; other values raise TypeError. -/
def pyIter : JValue → Except String (List JValue)
  | .arr xs => .ok xs
  | .obj f => .ok (f.map (fun p => JValue.str p.1))
  | .str s => .ok (s.data.map (fun c => JValue.str (String.mk [c])))
  | .null => .error "TypeError: NoneType object is not iterable"
  | .boolean _ => .error "TypeError: bool object is not iterable"
  | .num _ => .error "TypeError: int object is not iterable"

/-- The body of the loop in preprocess_result (src/api/index.py:71-79):
build the normalized seven-field dict for one project.  A non-dict project
raises AttributeError on .get. -/
def preprocess_project (project : JValue) : Except String JValue :=
  match project with
  | .obj f => .ok (.obj
      [("title", pyGet f "title" (.str "")),
       ("description", pyGet f "description" (.str "")),
       ("date", pyGet f "date" (.str "")),
       ("author", pyGet f "author" (.str "")),
       ("content", pyGet f "content" (.str "")),
       ("tags", pyGet f "tags" (.arr [])),
       ("url", pyGet f "url" (.str ""))])
  | _ => .error "AttributeError: object has no attribute get"

/-- The for-loop of preprocess_result: normalize each project in order,
accumulating the preprocessed_projects list. -/
def preprocess_projects_list : List JValue → Except String (List JValue)
  | [] => .ok []
  | p :: rest => do
    let q ← preprocess_project p
    let qs ← preprocess_projects_list rest
    .ok (q :: qs)

/-- preprocess_result (src/api/index.py:68-81).  The urls parameter is
taken but never read, exactly as in the source. -/
def preprocess_result (result : JValue) (urls : List String) : Except String JValue := do
  let ps ← pySubscript result "projects"
  let items ← pyIter ps
  let qs ← preprocess_projects_list items
  pure (.obj [("projects", .arr qs)])

/-- A validated Project record (the pydantic Project model,
src/api/index.py:54-61): title, description, content, url are required
strings, date and author are optional strings, tags is a list of strings. -/
structure ProjectRec where
  title : String
  description : String
  date : Option String
  author : Option String
  content : String
  tags : List String
  url : String

/-- The pydantic Projects model (src/api/index.py:64-65). -/
structure ProjectsRec where
  projects : List ProjectRec

/-- Validate a required str field. -/
def asStr : JValue → Except String String
  | .str s => .ok s
  | _ => .error "validation error: str expected"

/-- Validate an optional str field (None allowed). -/
def asOptStr : JValue → Except String (Option String)
  | .null => .ok none
  | .str s => .ok (some s)
  | _ => .error "validation error: optional str expected"

/-- Validate a list-of-str field. -/
def asStrList : JValue → Except String (List String)
  | .arr xs => xs.mapM asStr
  | _ => .error "validation error: list of str expected"

/-- A field required by the schema: error when absent. -/
def requireField (f : List (String × JValue)) (k : String) : Except String JValue :=
  match jLookup f k with
  | some v => .ok v
  | none => .error ("validation error: field missing: " ++ k)

/-- Validation of one project dict against the Project model. -/
def validateProject (v : JValue) : Except String ProjectRec :=
  match v with
  | .obj f => do
    let t ← requireField f "title" >>= asStr
    let d ← requireField f "description" >>= asStr
    let dt ← requireField f "date" >>= asOptStr
    let au ← requireField f "author" >>= asOptStr
    let c ← requireField f "content" >>= asStr
    let tg ← requireField f "tags" >>= asStrList
    let u ← requireField f "url" >>= asStr
    pure ⟨t, d, dt, au, c, tg, u⟩
  | _ => .error "validation error: dict expected for Project"

/-- Validation of the whole payload against the Projects model
(Projects(**preprocessed_result), src/api/index.py:155). -/
def validateProjects (v : JValue) : Except String ProjectsRec :=
  match v with
  | .obj f => do
    let ps ← requireField f "projects"
    match ps with
    | .arr xs => do
      let recs ← xs.mapM validateProject
      pure ⟨recs⟩
    | _ => .error "validation error: list expected for projects"
  | _ => .error "validation error: dict expected for Projects"

/-- Serialization of an optional string (None becomes JSON null). -/
def optStrToJValue : Option String → JValue
  | none => .null
  | some s => .str s

/-- Serialization of a validated Project (field order of the model). -/
def projectToJValue (p : ProjectRec) : JValue :=
  .obj [("title", .str p.title), ("description", .str p.description),
        ("date", optStrToJValue p.date), ("author", optStrToJValue p.author),
        ("content", .str p.content), ("tags", .arr (p.tags.map JValue.str)),
        ("url", .str p.url)]

/-- Serialization of the validated result, validated_result.dict()
(src/api/index.py:159). -/
def projectsToJValue (p : ProjectsRec) : JValue :=
  .obj [("projects", .arr (p.projects.map projectToJValue))]

/-- Python str.split with a one-character separator: splitting the empty
string yields a singleton list holding the empty string. -/
def pySplitAux (sep : Char) : List Char → List Char → List String
  | [], acc => [String.mk acc.reverse]
  | c :: cs, acc =>
    if c = sep then String.mk acc.reverse :: pySplitAux sep cs []
    else pySplitAux sep cs (c :: acc)

/-- urls.split(",") (src/api/index.py:103). -/
def pySplit (s : String) (sep : Char) : List String := pySplitAux sep s.data []

/-- An HTTP response: status code and JSON body. -/
structure HttpResponse where
  status : Nat
  body : JValue

/-- Lines 148-149: a string result is parsed with json.loads before
normalization; a structured result passes through unchanged. -/
def resolveResult (parse : String → Except String JValue) (result : JValue) :
    Except String JValue :=
  match result with
  | .str s => parse s
  | v => .ok v

/-- The body of the try block (src/api/index.py:135-159): take the
external outcome, parse a string result, normalize, validate.  parse
models json.loads and ext the outcome of the pooled scraper task. -/
def scrapePipeline (parse : String → Except String JValue)
    (ext : Except String JValue) (urlList : List String) :
    Except String ProjectsRec := do
  let result ← ext
  let result2 ← resolveResult parse result
  let pre ← preprocess_result result2 urlList
  validateProjects pre

/-- The scrape handler (src/api/index.py:101-162): split urls on commas,
return 400 when the list is empty (falsy), otherwise run the pipeline and
answer 200 with the serialized validated result, or 500 with an error
body carrying str(e). -/
def scrape (parse : String → Except String JValue) (ext : Except String JValue)
    (urls : String) : HttpResponse :=
  let urlList := pySplit urls ','
  if urlList.isEmpty then
    ⟨400, .obj [("detail", .str "No URLs provided")]⟩
  else
    match scrapePipeline parse ext urlList with
    | .ok validated => ⟨200, projectsToJValue validated⟩
    | .error e => ⟨500, .obj [("error", .str e)]⟩

/-- isinstance(v, str) (src/api/index.py:148). -/
def JValue.isStr : JValue → Bool
  | .str _ => true
  | _ => false

/-- isinstance(v, dict). -/
def JValue.isObj : JValue → Bool
  | .obj _ => true
  | _ => false

/-- The seven expected project fields with their defaults, in the order of
the dict literal at src/api/index.py:71-79. -/
def projectDefaults : List (String × JValue) :=
  [("title", .str ""), ("description", .str ""), ("date", .str ""),
   ("author", .str ""), ("content", .str ""), ("tags", .arr []),
   ("url", .str "")]

/-- The normalization property claimed for one project: the output is a
dict with exactly the seven expected keys, where a key present in the
input keeps its input value and an absent key gets its default. -/
def ProjectNormSpec (p q : JValue) : Prop :=
  ∃ f g, p = JValue.obj f ∧ q = JValue.obj g ∧
    g.map Prod.fst = projectDefaults.map Prod.fst ∧
    ∀ kd ∈ projectDefaults, jLookup g kd.1 = some ((jLookup f kd.1).getD kd.2)

/-!
Heap-level model of preprocess_result, for the frame (purity) property:
Python objects live in a heap of cells addressed by allocation order;
dict fields and list elements hold addresses.  dict.get returns the
stored address when the key is present and otherwise the address of a
freshly materialized default; the loop mutates only the freshly allocated
preprocessed_projects list cell.
-/

/-- A heap cell: one Python object. -/
inductive HVal where
  | null
  | str (s : String)
  | intg (n : Int)
  | arr (elems : List Nat)
  | obj (fields : List (String × Nat))

/-- The heap: cell at address a is the a-th element; allocation appends. -/
abbrev Heap := List HVal

/-- Read the cell at an address. -/
def hread (h : Heap) (a : Nat) : HVal := (h[a]?).getD .null

/-- Allocate a new object, returning the extended heap and its address. -/
def halloc (h : Heap) (v : HVal) : Heap × Nat := (h ++ [v], h.length)

/-- Overwrite the cell at an address. -/
def hwrite (h : Heap) (a : Nat) (v : HVal) : Heap := h.set a v

/-- Allocate a list of objects, returning their addresses in order. -/
def hallocList (h : Heap) : List HVal → Heap × List Nat
  | [] => (h, [])
  | v :: rest =>
    let r := halloc h v
    let rr := hallocList r.1 rest
    (rr.1, r.2 :: rr.2)

/-- dict.get(k, dflt) at heap level: the stored address when present,
else the address of a freshly allocated default object. -/
def hget (h : Heap) (fields : List (String × Nat)) (k : String) (dflt : HVal) :
    Heap × Nat :=
  match fields.find? (fun p => p.1 == k) with
  | some p => (h, p.2)
  | none => halloc h dflt

/-- The seven .get calls of the loop body in order, producing the field
list of the new project dict. -/
def hgetFields (h : Heap) (fields : List (String × Nat)) :
    List (String × HVal) → Heap × List (String × Nat)
  | [] => (h, [])
  | (k, d) :: rest =>
    let r := hget h fields k d
    let rr := hgetFields r.1 fields rest
    (rr.1, (k, r.2) :: rr.2)

/-- Defaults of the seven fields as heap cells. -/
def projectDefaultsH : List (String × HVal) :=
  [("title", .str ""), ("description", .str ""), ("date", .str ""),
   ("author", .str ""), ("content", .str ""), ("tags", .arr []),
   ("url", .str "")]

/-- One iteration of the loop at heap level: read the project (a non-dict
raises AttributeError on .get), run the seven .get calls, allocate the
new project dict. -/
def preprocess_project_heap (h : Heap) (pAddr : Nat) : Except String (Heap × Nat) :=
  match hread h pAddr with
  | .obj fields =>
    let r := hgetFields h fields projectDefaultsH
    .ok (halloc r.1 (.obj r.2))
  | _ => .error "AttributeError: object has no attribute get"

/-- Python iteration at heap level: a list yields its element addresses, a
dict its keys and a string its characters (freshly allocated as string
cells); other objects raise TypeError. -/
def hiter (h : Heap) (v : HVal) : Except String (Heap × List Nat) :=
  match v with
  | .arr es => .ok (h, es)
  | .obj fs => .ok (hallocList h (fs.map (fun p => HVal.str p.1)))
  | .str s => .ok (hallocList h (s.data.map (fun c => HVal.str (String.mk [c]))))
  | .null => .error "TypeError: object is not iterable"
  | .intg _ => .error "TypeError: object is not iterable"

/-- preprocessed_projects.append(q): mutate the accumulator list cell,
the only mutation of the function. -/
def happend (h : Heap) (accAddr : Nat) (q : Nat) : Heap :=
  match hread h accAddr with
  | .arr es => hwrite h accAddr (.arr (es ++ [q]))
  | _ => h

/-- The loop at heap level (continued): run the body, append, recurse. -/
def preprocess_loop_heap (h : Heap) (accAddr : Nat) : List Nat → Except String Heap
  | [] => .ok h
  | p :: rest =>
    match preprocess_project_heap h p with
    | .ok r => preprocess_loop_heap (happend r.1 accAddr r.2) accAddr rest
    | .error e => .error e

/-- preprocess_result at heap level: subscript the result dict, iterate
the projects value, allocate the empty accumulator list, run the loop,
allocate the returned dict. -/
def preprocess_result_heap (h : Heap) (resAddr urlsAddr : Nat) :
    Except String (Heap × Nat) :=
  match hread h resAddr with
  | .obj fields =>
    match fields.find? (fun p => p.1 == "projects") with
    | some pr =>
      match hiter h (hread h pr.2) with
      | .ok r =>
        let acc := halloc r.1 (.arr [])
        match preprocess_loop_heap acc.1 acc.2 r.2 with
        | .ok h2 => .ok (halloc h2 (.obj [("projects", acc.2)]))
        | .error e => .error e
      | .error e => .error e
    | none => .error "KeyError: projects"
  | _ => .error "TypeError: object is not subscriptable"

/-- The heap grew by allocation only: the new heap is the old one plus a
suffix of fresh cells. -/
def HeapExtends (h h2 : Heap) : Prop := ∃ t, h2 = h ++ t

/-- Modelled from the spec: the multi-URL batch variants of this
repository (near-duplicate implementations not present under src/) submit
one extraction task per URL to the worker pool, gather the per-URL
results in order and merge them; a failure in one URL task is swallowed
and that URL contributes nothing to the merged list. -/
def taskProjects (runTask : String → Except String (List ProjectRec))
    (u : String) : List ProjectRec :=
  match runTask u with
  | .ok ps => ps
  | .error _ => []

/-- Modelled from the spec: merge of the per-URL results of the
multi-pool variants, dropping failed URLs. -/
def multiPoolGather (runTask : String → Except String (List ProjectRec))
    (urls : List String) : List ProjectRec :=
  (urls.map (taskProjects runTask)).flatten

/-!
Theorems.  General helper lemmas first, then one theorem per claim (with
its witness or counterexample where required).
-/

theorem bind_ok {α β : Type} (a : α) (g : α → Except String β) :
    (Except.ok a >>= g) = g a := rfl

theorem bind_err {α β : Type} (e : String) (g : α → Except String β) :
    ((Except.error e : Except String α) >>= g) = .error e := rfl

theorem pure_eq_ok {α : Type} (a : α) :
    (pure a : Except String α) = .ok a := rfl

theorem pySplitAux_ne_nil (sep : Char) (l acc : List Char) :
    pySplitAux sep l acc ≠ [] := by
  induction l generalizing acc with
  | nil => simp [pySplitAux]
  | cons c cs ih =>
    simp only [pySplitAux]
    split
    · simp
    · exact ih _

/-- urls.split(",") in Python never yields an empty list, so the 400
guard of the handler can never fire. -/
theorem pySplit_isEmpty_false (s : String) : (pySplit s ',').isEmpty = false := by
  unfold pySplit
  cases hsp : pySplitAux ',' s.data [] with
  | nil => exact absurd hsp (pySplitAux_ne_nil ',' s.data [])
  | cons a as2 => rfl

/-- Claim C1 (code-bug evidence): for the empty urls query parameter the
handler does NOT return 400; Python urls.split(",") yields a singleton
list holding the empty string, the falsy-check never fires, and the
response is determined by the outcome of the external scraping call (500
when it raises, 200 when it succeeds), showing the call is invoked. -/
theorem scrape_empty_urls_reaches_scraper :
    scrape (fun _ => .error "unparsed") (.error "boom") "" =
      ⟨500, .obj [("error", .str "boom")]⟩ ∧
    scrape (fun _ => .error "unparsed") (.ok (.obj [("projects", .arr [])])) "" =
      ⟨200, .obj [("projects", .arr [])]⟩ ∧
    pySplit "" ',' = [""] :=
  ⟨rfl, rfl, rfl⟩

/-- Claim C9: the output of preprocess_result does not depend on its urls
argument. -/
theorem preprocess_result_ignores_urls (result : JValue) (u1 u2 : List String) :
    preprocess_result result u1 = preprocess_result result u2 := rfl

/-- Claim C3 counterexample: an exception whose str() rendering is empty
(e.g. a bare Exception()) produces a 500 response whose error message is
the empty string, contradicting the claimed non-emptiness. -/
theorem scrape_error_message_can_be_empty :
    scrape (fun _ => .error "unparsed") (.error "") "https://a" =
      ⟨500, .obj [("error", .str "")]⟩ := rfl

/-- Claim C3 (amended): whenever any stage of the try block (external
call, JSON parse, normalization, validation) raises with message msg, the
handler returns status 500 with body error msg (msg may be empty when the
exception renders to the empty string), and never a projects payload. -/
theorem scrape_exception_uniform_500 (parse : String → Except String JValue)
    (ext : Except String JValue) (urls msg : String)
    (h : scrapePipeline parse ext (pySplit urls ',') = .error msg) :
    scrape parse ext urls = ⟨500, .obj [("error", .str msg)]⟩ := by
  unfold scrape
  simp only [pySplit_isEmpty_false, Bool.false_eq_true, if_false, h]

theorem scrape_exception_uniform_500_witness :
    scrapePipeline (fun _ => .error "unparsed") (.error "boom")
      (pySplit "https://a" ',') = .error "boom" ∧
    scrape (fun _ => .error "unparsed") (.error "boom") "https://a" =
      ⟨500, .obj [("error", .str "boom")]⟩ :=
  ⟨rfl, scrape_exception_uniform_500 _ _ _ _ rfl⟩

/-- Claim C4: when the external call succeeds and the pipeline (parse,
normalize, validate) produces a validated Projects value v, the handler
returns 200 with the serialization of v, a body of shape projects-list. -/
theorem scrape_success_200 (parse : String → Except String JValue)
    (ext : Except String JValue) (urls : String) (v : ProjectsRec)
    (h : scrapePipeline parse ext (pySplit urls ',') = .ok v) :
    scrape parse ext urls =
      ⟨200, .obj [("projects", .arr (v.projects.map projectToJValue))]⟩ := by
  unfold scrape
  simp only [pySplit_isEmpty_false, Bool.false_eq_true, if_false, h]
  rfl

theorem scrape_success_200_witness :
    scrapePipeline (fun _ => .error "unparsed")
      (.ok (.obj [("projects", .arr [])])) (pySplit "https://a" ',') =
        .ok ⟨[]⟩ ∧
    scrape (fun _ => .error "unparsed") (.ok (.obj [("projects", .arr [])]))
        "https://a" = ⟨200, .obj [("projects", .arr [])]⟩ :=
  ⟨rfl, scrape_success_200 (fun _ => .error "unparsed")
    (.ok (.obj [("projects", .arr [])])) "https://a" ⟨[]⟩ rfl⟩

/-- Claim C6: a string raw result is parsed with json.loads before
normalization and a structured (non-string) raw result passes to
preprocess_result unchanged, so downstream stages receive the same
structured value in both cases and the responses agree. -/
theorem scrape_string_result_parsed (parse : String → Except String JValue)
    (s : String) (v : JValue) (urls : String)
    (hparse : parse s = .ok v) (hstruct : v.isStr = false) :
    resolveResult parse (.str s) = parse s ∧
    resolveResult parse v = .ok v ∧
    scrape parse (.ok (.str s)) urls = scrape parse (.ok v) urls := by
  have h2 : resolveResult parse v = .ok v := by
    cases v with
    | str t => exact absurd hstruct (by simp [JValue.isStr])
    | null => rfl
    | boolean b => rfl
    | num n => rfl
    | arr es => rfl
    | obj fs => rfl
  refine ⟨rfl, h2, ?_⟩
  have hpipe : scrapePipeline parse (.ok (.str s)) (pySplit urls ',') =
      scrapePipeline parse (.ok v) (pySplit urls ',') := by
    unfold scrapePipeline
    simp only [bind_ok]
    rw [show resolveResult parse (.str s) = parse s from rfl, hparse, h2]
  simp only [scrape, hpipe]

theorem scrape_string_result_parsed_witness :
    (fun t => if t = "x" then Except.ok (JValue.obj []) else .error "bad") "x" =
      Except.ok (JValue.obj []) ∧
    JValue.isStr (JValue.obj []) = false ∧
    scrape (fun t => if t = "x" then Except.ok (JValue.obj []) else .error "bad")
        (.ok (.str "x")) "u" =
      scrape (fun t => if t = "x" then Except.ok (JValue.obj []) else .error "bad")
        (.ok (.obj [])) "u" :=
  ⟨rfl, rfl, (scrape_string_result_parsed _ "x" (JValue.obj []) "u" rfl rfl).2.2⟩

/-- One loop iteration on a dict project satisfies the normalization
property: output has exactly the seven keys, present keys keep their
values, absent keys get defaults. -/
theorem preprocess_project_norm (f : List (String × JValue)) :
    preprocess_project (.obj f) =
      .ok (.obj (projectDefaults.map (fun kd => (kd.1, pyGet f kd.1 kd.2)))) ∧
    ProjectNormSpec (.obj f)
      (.obj (projectDefaults.map (fun kd => (kd.1, pyGet f kd.1 kd.2)))) := by
  refine ⟨rfl, f, _, rfl, rfl, rfl, ?_⟩
  intro kd hkd
  simp only [projectDefaults, List.mem_cons, List.not_mem_nil, or_false] at hkd
  rcases hkd with rfl | rfl | rfl | rfl | rfl | rfl | rfl <;> rfl

/-- The loop maps a list of dict projects to a same-length list of
normalized projects, pointwise satisfying the normalization property. -/
theorem preprocess_projects_list_norm (ps : List JValue)
    (hdicts : ps.all JValue.isObj = true) :
    ∃ qs, preprocess_projects_list ps = .ok qs ∧
      List.Forall₂ ProjectNormSpec ps qs := by
  induction ps with
  | nil => exact ⟨[], rfl, List.Forall₂.nil⟩
  | cons p rest ih =>
    simp only [List.all_cons, Bool.and_eq_true] at hdicts
    obtain ⟨hp, hrest⟩ := hdicts
    obtain ⟨f, rfl⟩ : ∃ f, p = JValue.obj f := by
      cases p <;> simp [JValue.isObj] at hp
      exact ⟨_, rfl⟩
    obtain ⟨qs, hqs, hfa⟩ := ih hrest
    refine ⟨_ :: qs, ?_, List.Forall₂.cons (preprocess_project_norm f).2 hfa⟩
    simp only [preprocess_projects_list, (preprocess_project_norm f).1, hqs,
      bind_ok]

/-- Claim C2: for a raw result dict whose projects key holds a list of
dicts, preprocess_result returns a dict with a same-length projects list
in which every project has exactly the seven expected keys; a key absent
from the input project is filled with its default (empty string, empty
list for tags) and a present key keeps its input value. -/
theorem preprocess_result_normalizes (d : List (String × JValue))
    (ps : List JValue) (urls : List String)
    (hp : jLookup d "projects" = some (.arr ps))
    (hdicts : ps.all JValue.isObj = true) :
    ∃ qs, preprocess_result (.obj d) urls = .ok (.obj [("projects", .arr qs)]) ∧
      qs.length = ps.length ∧ List.Forall₂ ProjectNormSpec ps qs := by
  obtain ⟨qs, hqs, hfa⟩ := preprocess_projects_list_norm ps hdicts
  refine ⟨qs, ?_, hfa.length_eq.symm, hfa⟩
  have h1 : pySubscript (.obj d) "projects" = .ok (.arr ps) := by
    simp only [pySubscript, hp]
  simp only [preprocess_result, h1, bind_ok, pyIter, hqs, pure_eq_ok]

theorem preprocess_result_normalizes_witness :
    jLookup [("projects", JValue.arr [.obj [("title", .str "T")]])] "projects" =
      some (.arr [.obj [("title", .str "T")]]) ∧
    ([JValue.obj [("title", JValue.str "T")]].all JValue.isObj = true) ∧
    ∃ qs, preprocess_result
        (.obj [("projects", .arr [.obj [("title", .str "T")]])]) [] =
        .ok (.obj [("projects", .arr qs)]) ∧
      qs.length = [JValue.obj [("title", JValue.str "T")]].length ∧
      List.Forall₂ ProjectNormSpec [JValue.obj [("title", JValue.str "T")]] qs :=
  ⟨rfl, rfl, preprocess_result_normalizes _ _ [] rfl rfl⟩

/-- Claim C8: dict.get defaults only absent keys, never null values: when
one of the seven expected keys is present and maps to None, the
normalized project keeps None for that field; in particular a null title
survives normalization and then fails schema validation. -/
theorem preprocess_project_keeps_null (f : List (String × JValue))
    (k : String) (dflt : JValue)
    (hk : (k, dflt) ∈ projectDefaults)
    (hnull : jLookup f k = some JValue.null) :
    (∃ g, preprocess_project (.obj f) = .ok (.obj g) ∧
      jLookup g k = some JValue.null) ∧
    ∃ e, validateProjects (.obj [("projects", .arr
      [.obj [("title", JValue.null), ("description", .str ""),
        ("date", .str ""), ("author", .str ""), ("content", .str ""),
        ("tags", .arr []), ("url", .str "")]])]) = .error e := by
  refine ⟨?_, ⟨_, rfl⟩⟩
  obtain ⟨hrun, hspec⟩ := preprocess_project_norm f
  obtain ⟨f2, g, hpe, hqe, hkeys, hvals⟩ := hspec
  injection hpe with hf2
  subst hf2
  have hval := hvals (k, dflt) hk
  simp only at hval
  rw [hnull] at hval
  simp only [Option.getD_some] at hval
  refine ⟨g, ?_, hval⟩
  rw [hrun, hqe]

theorem preprocess_project_keeps_null_witness :
    (("title", JValue.str "") ∈ projectDefaults) ∧
    jLookup [("title", JValue.null)] "title" = some JValue.null ∧
    ((∃ g, preprocess_project (.obj [("title", JValue.null)]) = .ok (.obj g) ∧
      jLookup g "title" = some JValue.null) ∧
    ∃ e, validateProjects (.obj [("projects", .arr
      [.obj [("title", JValue.null), ("description", .str ""),
        ("date", .str ""), ("author", .str ""), ("content", .str ""),
        ("tags", .arr []), ("url", .str "")]])]) = .error e) :=
  ⟨List.mem_cons_self _ _, rfl,
    preprocess_project_keeps_null [("title", JValue.null)] "title"
      (JValue.str "") (List.mem_cons_self _ _) rfl⟩

/-- A dict that already has exactly the seven expected fields is a fixed
point of the loop body: every .get hits its key. -/
theorem preprocess_project_fixed (x1 x2 x3 x4 x5 x6 x7 : JValue) :
    preprocess_project (.obj [("title", x1), ("description", x2),
      ("date", x3), ("author", x4), ("content", x5), ("tags", x6),
      ("url", x7)]) =
    .ok (.obj [("title", x1), ("description", x2), ("date", x3),
      ("author", x4), ("content", x5), ("tags", x6), ("url", x7)]) := rfl

/-- Loop-body outputs are fixed points of the loop body. -/
theorem preprocess_project_idem (p q : JValue)
    (h : preprocess_project p = .ok q) : preprocess_project q = .ok q := by
  cases p with
  | obj f =>
    have h1 := (preprocess_project_norm f).1
    rw [h] at h1
    injection h1 with h2
    subst h2
    exact preprocess_project_fixed _ _ _ _ _ _ _
  | null => exact Except.noConfusion h
  | boolean b => exact Except.noConfusion h
  | num n => exact Except.noConfusion h
  | str s => exact Except.noConfusion h
  | arr es => exact Except.noConfusion h

/-- The output list of the loop is a fixed point of the loop. -/
theorem preprocess_projects_list_fixed (items qs : List JValue)
    (h : preprocess_projects_list items = .ok qs) :
    preprocess_projects_list qs = .ok qs := by
  induction items generalizing qs with
  | nil =>
    obtain rfl : qs = [] := by
      injection h with h2
      exact h2.symm
    rfl
  | cons p rest ih =>
    cases hq : preprocess_project p with
    | error e =>
      simp only [preprocess_projects_list, hq, bind_err] at h
      exact Except.noConfusion h
    | ok q =>
      cases hr : preprocess_projects_list rest with
      | error e =>
        simp only [preprocess_projects_list, hq, bind_ok, hr, bind_err] at h
        exact Except.noConfusion h
      | ok qs2 =>
        simp only [preprocess_projects_list, hq, bind_ok, hr] at h
        obtain rfl : qs = q :: qs2 := by
          injection h with h2
          exact h2.symm
        simp only [preprocess_projects_list, preprocess_project_idem p q hq,
          bind_ok, ih qs2 hr]

/-- Claim C10: preprocess_result is idempotent: reapplying it to a
successful output (with any urls argument) returns that output. -/
theorem preprocess_result_idempotent (result : JValue) (u1 u2 : List String)
    (out : JValue) (h : preprocess_result result u1 = .ok out) :
    preprocess_result out u2 = .ok out := by
  cases hs : pySubscript result "projects" with
  | error e =>
    simp only [preprocess_result, hs, bind_err] at h
    exact Except.noConfusion h
  | ok psv =>
    cases hi : pyIter psv with
    | error e =>
      simp only [preprocess_result, hs, bind_ok, hi, bind_err] at h
      exact Except.noConfusion h
    | ok items =>
      cases hl : preprocess_projects_list items with
      | error e =>
        simp only [preprocess_result, hs, bind_ok, hi, hl, bind_err] at h
        exact Except.noConfusion h
      | ok qs =>
        simp only [preprocess_result, hs, bind_ok, hi, hl, pure_eq_ok] at h
        obtain rfl : out = JValue.obj [("projects", .arr qs)] := by
          injection h with h2
          exact h2.symm
        have hfix := preprocess_projects_list_fixed items qs hl
        simp only [preprocess_result,
          (show pySubscript (JValue.obj [("projects", JValue.arr qs)])
            "projects" = .ok (.arr qs) from rfl), bind_ok,
          (show pyIter (JValue.arr qs) = .ok qs from rfl), hfix, pure_eq_ok]

theorem preprocess_result_idempotent_witness :
    preprocess_result (.obj [("projects",
        .arr [.obj [("title", .str "T")]])]) [] =
      .ok (.obj [("projects", .arr [.obj
        [("title", .str "T"), ("description", .str ""), ("date", .str ""),
         ("author", .str ""), ("content", .str ""), ("tags", .arr []),
         ("url", .str "")]])]) ∧
    preprocess_result (.obj [("projects", .arr [.obj
        [("title", .str "T"), ("description", .str ""), ("date", .str ""),
         ("author", .str ""), ("content", .str ""), ("tags", .arr []),
         ("url", .str "")]])]) ["https://a"] =
      .ok (.obj [("projects", .arr [.obj
        [("title", .str "T"), ("description", .str ""), ("date", .str ""),
         ("author", .str ""), ("content", .str ""), ("tags", .arr []),
         ("url", .str "")]])]) :=
  ⟨rfl, preprocess_result_idempotent
    (.obj [("projects", .arr [.obj [("title", .str "T")]])]) [] ["https://a"]
    _ rfl⟩

theorem taskProjects_fail (runTask : String → Except String (List ProjectRec))
    (u e : String) (h : runTask u = .error e) : taskProjects runTask u = [] := by
  simp [taskProjects, h]

theorem multiPoolGather_cons (runTask : String → Except String (List ProjectRec))
    (u : String) (urls : List String) :
    multiPoolGather runTask (u :: urls) =
      taskProjects runTask u ++ multiPoolGather runTask urls := rfl

/-- Claim C5 (modelled from the spec, multi-pool variants): when the task
of one URL fails, the gathered project list equals the gather over the
remaining URLs: the failed URL contributes nothing and every other URL
still contributes its results. -/
theorem multiPool_single_failure_isolated
    (runTask : String → Except String (List ProjectRec))
    (urls : List String) (u0 e : String) (hfail : runTask u0 = .error e) :
    multiPoolGather runTask urls =
      multiPoolGather runTask (urls.filter (fun u => u != u0)) := by
  induction urls with
  | nil => rfl
  | cons u rest ih =>
    by_cases hu : u = u0
    · subst hu
      have h2 : (u :: rest).filter (fun x => x != u) =
          rest.filter (fun x => x != u) := by
        simp [List.filter_cons]
      rw [multiPoolGather_cons, taskProjects_fail runTask u e hfail, h2,
        List.nil_append, ih]
    · have h2 : (u :: rest).filter (fun x => x != u0) =
          u :: rest.filter (fun x => x != u0) := by
        simp [List.filter_cons, hu]
      rw [multiPoolGather_cons, h2, multiPoolGather_cons, ih]

theorem multiPool_single_failure_isolated_witness :
    (fun u => if u = "bad" then Except.error "scrape failed"
      else Except.ok [(⟨"t", "d", none, none, "c", [], u⟩ : ProjectRec)]) "bad"
      = Except.error "scrape failed" ∧
    multiPoolGather (fun u => if u = "bad" then Except.error "scrape failed"
        else Except.ok [(⟨"t", "d", none, none, "c", [], u⟩ : ProjectRec)])
      ["https://a", "bad", "https://b"] =
    multiPoolGather (fun u => if u = "bad" then Except.error "scrape failed"
        else Except.ok [(⟨"t", "d", none, none, "c", [], u⟩ : ProjectRec)])
      (["https://a", "bad", "https://b"].filter (fun u => u != "bad")) :=
  ⟨rfl, multiPool_single_failure_isolated _ _ "bad" "scrape failed" rfl⟩

theorem heapExtends_refl (h : Heap) : HeapExtends h h := ⟨[], by simp⟩

theorem heapExtends_trans {h1 h2 h3 : Heap} (a : HeapExtends h1 h2)
    (b : HeapExtends h2 h3) : HeapExtends h1 h3 := by
  obtain ⟨t, rfl⟩ := a
  obtain ⟨t2, rfl⟩ := b
  exact ⟨t ++ t2, by simp⟩

theorem heapExtends_length {h1 h2 : Heap} (a : HeapExtends h1 h2) :
    h1.length ≤ h2.length := by
  obtain ⟨t, rfl⟩ := a
  simp

/-- A read below the old length is unchanged by allocation. -/
theorem hread_extends {h1 h2 : Heap} (hx : HeapExtends h1 h2) {a : Nat}
    (ha : a < h1.length) : hread h2 a = hread h1 a := by
  obtain ⟨t, rfl⟩ := hx
  unfold hread
  rw [List.getElem?_append_left ha]

theorem hallocList_extends (vs : List HVal) (h : Heap) :
    HeapExtends h (hallocList h vs).1 := by
  induction vs generalizing h with
  | nil => exact heapExtends_refl h
  | cons v rest ih => exact heapExtends_trans ⟨[v], rfl⟩ (ih (h ++ [v]))

theorem hget_extends (h : Heap) (fields : List (String × Nat)) (k : String)
    (d : HVal) : HeapExtends h (hget h fields k d).1 := by
  cases hf : fields.find? (fun p => p.1 == k) with
  | some p =>
    simp only [hget, hf]
    exact heapExtends_refl h
  | none =>
    simp only [hget, hf]
    exact ⟨[d], rfl⟩

theorem hgetFields_extends (ds : List (String × HVal)) (h : Heap)
    (fields : List (String × Nat)) :
    HeapExtends h (hgetFields h fields ds).1 := by
  induction ds generalizing h with
  | nil => exact heapExtends_refl h
  | cons kd rest ih =>
    obtain ⟨k, d⟩ := kd
    exact heapExtends_trans (hget_extends h fields k d)
      (ih (hget h fields k d).1)

/-- The loop body only allocates: the old heap is a prefix of the new. -/
theorem preprocess_project_heap_extends (h : Heap) (p : Nat) (h2 : Heap)
    (q : Nat) (hok : preprocess_project_heap h p = .ok (h2, q)) :
    HeapExtends h h2 := by
  cases hv : hread h p with
  | obj fields =>
    simp only [preprocess_project_heap, hv, halloc] at hok
    injection hok with hpair
    injection hpair with e1 e2
    subst e1
    exact heapExtends_trans (hgetFields_extends projectDefaultsH h fields)
      ⟨_, rfl⟩
  | null =>
    simp only [preprocess_project_heap, hv] at hok
    exact Except.noConfusion hok
  | str s =>
    simp only [preprocess_project_heap, hv] at hok
    exact Except.noConfusion hok
  | intg n =>
    simp only [preprocess_project_heap, hv] at hok
    exact Except.noConfusion hok
  | arr es =>
    simp only [preprocess_project_heap, hv] at hok
    exact Except.noConfusion hok

/-- A write to the accumulator cell does not change other cells. -/
theorem hwrite_frame (h : Heap) (acc a : Nat) (v : HVal) (hane : a ≠ acc) :
    hread (hwrite h acc v) a = hread h a := by
  unfold hread hwrite
  rw [List.getElem?_set_ne (fun e => hane e.symm)]

theorem happend_frame (h : Heap) (acc a q : Nat) (hane : a ≠ acc) :
    hread (happend h acc q) a = hread h a := by
  cases hacc : hread h acc with
  | arr es =>
    simp only [happend, hacc]
    exact hwrite_frame h acc a _ hane
  | null => simp only [happend, hacc]
  | str s => simp only [happend, hacc]
  | intg n => simp only [happend, hacc]
  | obj fs => simp only [happend, hacc]

theorem happend_length (h : Heap) (acc q : Nat) :
    (happend h acc q).length = h.length := by
  cases hacc : hread h acc with
  | arr es => simp [happend, hacc, hwrite]
  | null => simp [happend, hacc]
  | str s => simp [happend, hacc]
  | intg n => simp [happend, hacc]
  | obj fs => simp [happend, hacc]

/-- The loop preserves every cell other than the accumulator and never
shrinks the heap. -/
theorem preprocess_loop_heap_frame (ps : List Nat) (h : Heap) (accAddr : Nat)
    (h2 : Heap) (hok : preprocess_loop_heap h accAddr ps = .ok h2) :
    (∀ a, a < h.length → a ≠ accAddr → hread h2 a = hread h a) ∧
    h.length ≤ h2.length := by
  induction ps generalizing h with
  | nil =>
    obtain rfl : h2 = h := by
      injection hok with e
      exact e.symm
    exact ⟨fun a _ _ => rfl, le_refl _⟩
  | cons p rest ih =>
    cases hpp : preprocess_project_heap h p with
    | error e =>
      simp only [preprocess_loop_heap, hpp] at hok
      exact Except.noConfusion hok
    | ok r =>
      obtain ⟨h1, q⟩ := r
      simp only [preprocess_loop_heap, hpp] at hok
      have hx : HeapExtends h h1 := preprocess_project_heap_extends h p h1 q hpp
      obtain ⟨ihf, ihlen⟩ := ih (happend h1 accAddr q) hok
      constructor
      · intro a ha hane
        have ha1 : a < h1.length := lt_of_lt_of_le ha (heapExtends_length hx)
        have ha2 : a < (happend h1 accAddr q).length := by
          rw [happend_length]
          exact ha1
        exact ((ihf a ha2 hane).trans (happend_frame h1 accAddr a q hane)).trans
          (hread_extends hx ha)
      · have l1 : h.length ≤ h1.length := heapExtends_length hx
        have l2 : h1.length = (happend h1 accAddr q).length :=
          (happend_length h1 accAddr q).symm
        omega

theorem hiter_extends (h : Heap) (v : HVal) (h0 : Heap) (ps : List Nat)
    (hok : hiter h v = .ok (h0, ps)) : HeapExtends h h0 := by
  cases v with
  | arr es =>
    injection hok with hpair
    injection hpair with e1 e2
    subst e1
    exact heapExtends_refl h
  | obj fs =>
    injection hok with hpair
    have e1 : h0 = (hallocList h (fs.map (fun p => HVal.str p.1))).1 := by
      have e := congrArg Prod.fst hpair
      simpa using e.symm
    subst e1
    exact hallocList_extends _ h
  | str s =>
    injection hok with hpair
    have e1 : h0 =
        (hallocList h (s.data.map (fun c => HVal.str (String.mk [c])))).1 := by
      have e := congrArg Prod.fst hpair
      simpa using e.symm
    subst e1
    exact hallocList_extends _ h
  | null => exact Except.noConfusion hok
  | intg n => exact Except.noConfusion hok

/-- Claim C7: preprocess_result is side-effect free: at heap level, a
successful run changes no pre-existing cell (in particular the result
dict and the urls object passed as arguments are unchanged) and returns
the address of a newly constructed object; as a Lean function the model
is deterministic, so equal inputs give equal outputs. -/
theorem preprocess_result_heap_frame (h : Heap) (r u : Nat) (h2 : Heap)
    (out : Nat) (hok : preprocess_result_heap h r u = .ok (h2, out)) :
    (∀ a, a < h.length → hread h2 a = hread h a) ∧ h.length ≤ out := by
  cases hv : hread h r with
  | obj fields =>
    simp only [preprocess_result_heap, hv] at hok
    cases hf : fields.find? (fun p => p.1 == "projects") with
    | none =>
      simp only [hf] at hok
      exact Except.noConfusion hok
    | some pr =>
      simp only [hf] at hok
      cases hit : hiter h (hread h pr.2) with
      | error e =>
        simp only [hit] at hok
        exact Except.noConfusion hok
      | ok rr =>
        obtain ⟨h0, ps⟩ := rr
        simp only [hit, halloc] at hok
        cases hlp : preprocess_loop_heap (h0 ++ [HVal.arr []]) h0.length ps with
        | error e =>
          simp only [hlp] at hok
          exact Except.noConfusion hok
        | ok hl =>
          simp only [hlp] at hok
          injection hok with hpair
          injection hpair with e1 e2
          subst e1
          subst e2
          have hx0 : HeapExtends h h0 := hiter_extends h (hread h pr.2) h0 ps hit
          obtain ⟨lf, llen⟩ :=
            preprocess_loop_heap_frame ps (h0 ++ [HVal.arr []]) h0.length hl hlp
          have hlen01 : (h0 ++ [HVal.arr []]).length = h0.length + 1 := by simp
          constructor
          · intro a ha
            have ha0 : a < h0.length := lt_of_lt_of_le ha (heapExtends_length hx0)
            have ha1 : a < (h0 ++ [HVal.arr []]).length := by omega
            have hane : a ≠ h0.length := Nat.ne_of_lt ha0
            have e1 : hread (hl ++ [HVal.obj [("projects", h0.length)]]) a =
                hread hl a :=
              hread_extends ⟨_, rfl⟩ (lt_of_lt_of_le ha1 llen)
            have e2 : hread hl a = hread (h0 ++ [HVal.arr []]) a := lf a ha1 hane
            have e3 : hread (h0 ++ [HVal.arr []]) a = hread h0 a :=
              hread_extends ⟨_, rfl⟩ ha0
            exact (e1.trans e2).trans (e3.trans (hread_extends hx0 ha))
          · have l0 : h.length ≤ h0.length := heapExtends_length hx0
            omega
  | null =>
    simp only [preprocess_result_heap, hv] at hok
    exact Except.noConfusion hok
  | str s =>
    simp only [preprocess_result_heap, hv] at hok
    exact Except.noConfusion hok
  | intg n =>
    simp only [preprocess_result_heap, hv] at hok
    exact Except.noConfusion hok
  | arr es =>
    simp only [preprocess_result_heap, hv] at hok
    exact Except.noConfusion hok

theorem preprocess_result_heap_frame_witness :
    preprocess_result_heap
        [HVal.obj [("projects", 1)], HVal.arr [], HVal.null] 0 2 =
      .ok ([HVal.obj [("projects", 1)], HVal.arr [], HVal.null,
            HVal.arr [], HVal.obj [("projects", 3)]], 4) ∧
    hread [HVal.obj [("projects", 1)], HVal.arr [], HVal.null,
           HVal.arr [], HVal.obj [("projects", 3)]] 0 =
      hread [HVal.obj [("projects", 1)], HVal.arr [], HVal.null] 0 ∧
    (3 : Nat) ≤ 4 :=
  ⟨rfl,
    (preprocess_result_heap_frame
      [HVal.obj [("projects", 1)], HVal.arr [], HVal.null] 0 2
      [HVal.obj [("projects", 1)], HVal.arr [], HVal.null,
       HVal.arr [], HVal.obj [("projects", 3)]] 4 rfl).1 0 (by decide),
    (preprocess_result_heap_frame
      [HVal.obj [("projects", 1)], HVal.arr [], HVal.null] 0 2
      [HVal.obj [("projects", 1)], HVal.arr [], HVal.null,
       HVal.arr [], HVal.obj [("projects", 3)]] 4 rfl).2⟩
